import Mathlib

/-!
Verification of the prose pipeline execution engine (`prose/sequence.py`,
`prose/core/image.py`) against its natural-language specification.

The Python source is shallowly embedded: each relevant function is translated
into an executable Lean definition, and the spec's claims are stated and
proved (or refuted) about those definitions.
-/

namespace Prose

/-- Model of a `prose.core.image.Image` as seen by `Sequence.run`
(`sequence.py`): the `discard` flag read by the block loop, the per-run index
`i` assigned by the orchestrator (`image.i = i`, line 71; in the real class
this lands in the `computed` store, modelled separately below), and an
abstract payload `α` standing for all the state blocks mutate
(`data`/`metadata`/`computed`). -/
structure Image (α : Type) where
  discard : Bool
  i : Nat
  payload : α

/-- Model of a `Block` as used by `Sequence.run` and `MPSequence`:
`className` is `type(block).__name__` (used in discard messages and in
`MPSequence.check_data_blocks`), `run` is the `_run` body as a state
transformer on the image, `isData` models `isinstance(block, DataBlock)`,
and `termCount` counts received `terminate()` calls. -/
structure Block (α : Type) where
  className : String
  run : Image α → Image α
  isData : Bool
  termCount : Nat

/-- `type(self.blocks[b-1]).__name__` with Python list indexing: for `b = 0`
the Python index is `-1`, i.e. the last block of the list. -/
def pyPrev {α : Type} (blocks : List (Block α)) (b : Nat) : String :=
  if b = 0 then
    match blocks.getLast? with
    | some blk => blk.className
    | none => ""
  else
    match blocks.get? (b - 1) with
    | some blk => blk.className
    | none => ""

/-- Result of running one image through the block loop: the mutated image,
the indices of the blocks whose `_run` was invoked on it, the final
`discard_message` flag, and the recorded `last_block` cause (set on the first
skipped block). -/
structure ImgResult (α : Type) where
  image : Image α
  invoked : List Nat
  dm : Bool
  cause : Option String

/-- The inner block loop of `Sequence.run` (sequence.py lines 77-93), over
the enumerated block list: if the image is not discarded the block's `_run`
executes; otherwise, on the first skip, the name of `self.blocks[b-1]`
(Python indexing) is recorded as the cause. `allB` is the full block list
(for the `self.blocks[b-1]` access). -/
def runImageGo {α : Type} (allB : List (Block α)) :
    List (Nat × Block α) → Image α → Bool → Option String → ImgResult α
  | [], img, dm, cause => ⟨img, [], dm, cause⟩
  | (b, blk) :: rest, img, dm, cause =>
    if img.discard = false then
      let r := runImageGo allB rest (blk.run img) dm cause
      ⟨r.image, b :: r.invoked, r.dm, r.cause⟩
    else if dm = false then
      runImageGo allB rest img true (some (pyPrev allB b))
    else
      runImageGo allB rest img dm cause

/-- Processing of one image by `Sequence.run`: the orchestrator assigns
`image.i = i` (line 71) and then runs the enumerated block loop with
`discard_message = False` and no recorded cause. -/
def runImage {α : Type} (blocks : List (Block α)) (i : Nat) (img : Image α) :
    ImgResult α :=
  runImageGo blocks blocks.enum { img with i := i } false none

/-- The state of an image after the first `m` blocks' `run`, all applied
unconditionally (the hypothetical "no skip" fold, used to state when a block
sets `discard`). -/
def foldRun {α : Type} (bs : List (Block α)) (img : Image α) : Image α :=
  bs.foldl (fun im blk => blk.run im) img

/-- Image state after the first `m` blocks of the chain. -/
def runPrefix {α : Type} (blocks : List (Block α)) (m : Nat) (img : Image α) :
    Image α :=
  foldRun (blocks.take m) img

/-- The relative index of the first block dispatch that observes
`discard = true` for this image, if any: the position of the first skip. -/
def firstSkip {α : Type} : List (Block α) → Image α → Option Nat
  | [], _ => none
  | blk :: rest, img =>
    if img.discard = true then some 0
    else (firstSkip rest (blk.run img)).map (· + 1)

/-- How many blocks of the chain actually execute `run` on the image: up to
the first skip, or all of them. -/
def ranCount {α : Type} (bs : List (Block α)) (img : Image α) : Nat :=
  (firstSkip bs img).getD bs.length

/-- `discards[last_block].append(str(i))`, creating the key when absent
(sequence.py lines 91-93); a Python dict keeps the position of an existing
key. -/
def addDiscard (discards : List (String × List String)) (k v : String) :
    List (String × List String) :=
  if discards.any (fun p => p.1 = k) then
    discards.map (fun p => if p.1 = k then (p.1, p.2 ++ [v]) else p)
  else
    discards ++ [(k, v :: [])]

/-- Association-list lookup (a Python dict access). -/
def lookupA {β : Type} (l : List (String × β)) (k : String) : Option β :=
  match l with
  | [] => none
  | p :: rest => if p.1 = k then some p.2 else lookupA rest k

/-- Python dict assignment `d[k] = v`: an existing key keeps its position and
gets the new value, a new key is appended. -/
def upsert {β : Type} (l : List (String × β)) (k : String) (v : β) :
    List (String × β) :=
  if l.any (fun p => p.1 = k) then
    l.map (fun p => if p.1 = k then (p.1, v) else p)
  else
    l ++ [(k, v)]

/-- Aggregate outcome of `Sequence.run`: `n_processed_images`, the per-image
results, the `discards` tally, the emitted warnings, and the block list after
the optional `terminate()` pass. -/
structure RunResult (α : Type) where
  nProcessedImages : Nat
  results : List (ImgResult α)
  discards : List (String × List String)
  warnings : List String
  blocks : List (Block α)

/-- The outer image loop of `Sequence.run` (lines 66-96): each image gets its
index, runs through the blocks, contributes its discard record (live warning
or batched tally) and bumps `n_processed_images`. -/
def seqLoop {α : Type} (blocks : List (Block α)) (liveDiscard : Bool) :
    Nat → List (Image α) → Nat → List (String × List String) → List String →
    Nat × List (ImgResult α) × List (String × List String) × List String
  | _, [], nP, discards, warns => (nP, [], discards, warns)
  | i, im :: rest, nP, discards, warns =>
    let r := runImage blocks i im
    let dw :=
      match r.cause with
      | some name =>
        if liveDiscard then
          (discards, warns ++ [("image " ++ toString i ++ " discarded in " ++ name)])
        else
          (addDiscard discards name (toString i), warns)
      | none => (discards, warns)
    let rec1 := seqLoop blocks liveDiscard (i + 1) rest (nP + 1) dw.1 dw.2
    (rec1.1, r :: rec1.2.1, rec1.2.2.1, rec1.2.2.2)

/-- `Sequence.terminate`: `terminate()` on every block, modelled as a bump of
each block's terminate counter. -/
def terminateBlocks {α : Type} (blocks : List (Block α)) : List (Block α) :=
  blocks.map (fun b => { b with termCount := b.termCount + 1 })

/-- `Sequence.run` (sequence.py lines 41-104). The input is `none` for a null
image list, `some l` for a list (a single path/Image argument is wrapped into
a one-element list by line 43 and hence is never empty). An empty or null
list raises `ValueError("No images to process")` before any image is loaded
or processed; otherwise each image flows through the blocks, and at the end
`terminate()` runs (when requested) and the batched discard tally is emitted
as one summary warning per causing block. -/
def seqRun {α : Type} (blocks : List (Block α)) (images : Option (List (Image α)))
    (liveDiscard : Bool) (terminate : Bool) : Except String (RunResult α) :=
  match images with
  | none => Except.error "No images to process"
  | some imgs =>
    if imgs.length = 0 then Except.error "No images to process"
    else
      let res := seqLoop blocks liveDiscard 0 imgs 0 [] []
      let warns :=
        if liveDiscard then res.2.2.2
        else res.2.2.2 ++ res.2.2.1.map
          (fun p => p.1 ++ " discarded image" ++
            (if p.2.length > 1 then "s " else " ") ++
            String.intercalate ", " p.2)
      Except.ok
        ⟨res.1, res.2.1, res.2.2.1, warns,
          if terminate then terminateBlocks blocks else blocks⟩

/-- The canonical batched-discard record for one causing block `name`: the
(stringified) indices, in order, of the images starting at index `i` whose
first-skip cause is `name`. -/
def causeIdxs {α : Type} (blocks : List (Block α)) (name : String) :
    Nat → List (Image α) → List String
  | _, [] => []
  | i, im :: rest =>
    (if (runImage blocks i im).cause = some name then [toString i] else []) ++
      causeIdxs blocks name (i + 1) rest

/-! ## MPSequence (sequence.py lines 163-249) -/

/-- Model of `MPSequence`: the main per-image block chain `blocks` and the
optional `data_blocks` sub-sequence (`self.data`; `_has_data` is
`dataBlocks.isSome`). -/
structure MPSeq (α : Type) where
  blocks : List (Block α)
  dataBlocks : Option (List (Block α))

/-- `MPSequence.check_data_blocks` (lines 174-182): whether any main-chain
block is a `DataBlock` instance, in which case the run aborts via
`error(...)` followed by `sys.exit()`. -/
def hasBadDataBlocks {α : Type} (m : MPSeq α) : Bool :=
  m.blocks.any (fun b => b.isData)

/-- `_run_all` (lines 230-249): one image through the full block chain inside
a worker, with the same traversal/discard logic as `Sequence.run` but no
`image.i` assignment and only a live warning on the first skip. -/
def runAllWorker {α : Type} (blocks : List (Block α)) (img : Image α) :
    ImgResult α :=
  runImageGo blocks blocks.enum img false none

/-- Outcome of `MPSequence.run`: the per-image worker results, the data
sub-sequence's blocks after the run, and the main-chain blocks after the run
(never terminated by the parallel path). -/
structure MPRunResult (α : Type) where
  results : List (ImgResult α)
  dataBlocksAfter : Option (List (Block α))
  blocksAfter : List (Block α)

/-- The coordinator feeding one completed image into the data sub-sequence:
`self.data.run(image, terminate=False, show_progress=False)` (line 224);
the sub-sequence's blocks are returned unchanged in state except for what
their own runs do (no `terminate()`). -/
def feedData {α : Type} (dbs : List (Block α)) (img : Image α) :
    List (Block α) :=
  match seqRun dbs (some [img]) false false with
  | Except.ok r => r.blocks
  | Except.error _ => dbs

/-- `MPSequence.run` (lines 184-228): first `check_data_blocks` (before the
globals default, the input check, the pool and any loading), then the empty /
null input check, then the pool maps `_run_all` over the images (completion
order modelled as submission order) while the coordinator feeds each
completed image to the data sub-sequence; finally, when `terminate` is set
and data blocks exist, only `self.data.terminate()` runs — never the
main-chain blocks' `terminate`. -/
def mpRun {α : Type} (m : MPSeq α) (images : Option (List (Image α)))
    (terminate : Bool) : Except String (MPRunResult α) :=
  if hasBadDataBlocks m then
    Except.error "Data blocks cannot be used in MPSequence"
  else
    match images with
    | none => Except.error "No images to process"
    | some imgs =>
      if imgs.length = 0 then Except.error "No images to process"
      else
        let results := imgs.map (fun im => runAllWorker m.blocks im)
        let dataAfter :=
          match m.dataBlocks with
          | none => none
          | some dbs =>
            let fed := results.foldl (fun acc r => feedData acc r.image) dbs
            some (if terminate then terminateBlocks fed else fed)
        Except.ok ⟨results, dataAfter, m.blocks⟩

/-! ## Image container: copy independence (`Image.copy`, image.py 24-59)

`copy` builds a fresh `Image` from `deepcopy` of the metadata and computed
stores (and of the data only when `data=True`).  Deep copying is about
ownership, so the stores are modelled as cells of an explicit heap: an image
holds references, `deepcopy` allocates a fresh cell with equal contents, and
mutation writes through a reference.  An aliasing `copy` (one sharing the
original's cell) would refute the independence claim in this model. -/

/-- A heap of dictionary objects: cell `r` holds the assoc list
`cells.get r`. -/
structure Heap (V : Type) where
  cells : List (List (String × V))

/-- Allocate a fresh cell holding `c`; returns the new heap and the fresh
reference. -/
def Heap.alloc {V : Type} (h : Heap V) (c : List (String × V)) : Heap V × Nat :=
  (⟨h.cells ++ [c]⟩, h.cells.length)

/-- Contents of cell `r` (empty for a dangling reference). -/
def Heap.readCell {V : Type} (h : Heap V) (r : Nat) : List (String × V) :=
  (h.cells.get? r).getD []

/-- Overwrite cell `r`. -/
def Heap.writeCell {V : Type} (h : Heap V) (r : Nat) (c : List (String × V)) :
    Heap V :=
  ⟨h.cells.set r c⟩

/-- An `Image`'s owned containers: the optional pixel buffer (by value; only
its presence matters here) and references to its `metadata` and `computed`
dictionaries. -/
structure HImage (V : Type) where
  data : Option V
  metaRef : Nat
  compRef : Nat
  catalogs : Option V
  sources : Option V

/-- The attribute read `self.catalogs`: the instance `__dict__` first, then
the `__getattr__` fallthrough into the computed store; `none` is Python's
`AttributeError`. -/
def readCatalogs {V : Type} (h : Heap V) (img : HImage V) : Option V :=
  match img.catalogs with
  | some v => some v
  | none => lookupA (h.readCell img.compRef) "catalogs"

/-- The attribute read `self._sources`, like `readCatalogs`. -/
def readSources {V : Type} (h : Heap V) (img : HImage V) : Option V :=
  match img.sources with
  | some v => some v
  | none => lookupA (h.readCell img.compRef) "_sources"

/-- `Image.copy(data=...)` (image.py lines 34-59). Lines 47-51 build
`Image(deepcopy(self.data) if data else None, deepcopy(self.metadata),
deepcopy(self.computed))`: fresh metadata and computed cells with equal
contents, the pixel buffer only when `withData`. Lines 53-54 delete
`catalogs` and `_sources` from the new object's `__dict__`, and lines 56-57
reassign them with copies of the original's values. Each reassignment goes
through the intercepting `__setattr__` (neither name is a class attribute):
when `hasattr` finds the name in the new object's computed store,
`object.__setattr__` restores an instance attribute; otherwise — the normal
case — the value lands in the copy's computed store. `deepcopy`/`copy` of
the opaque catalogs and sources values is the value itself (only the
metadata/computed dictionaries are heap cells here); a failing attribute
read on the original raises (`Except.error`). -/
def copyImage {V : Type} (h : Heap V) (img : HImage V) (withData : Bool) :
    Except String (Heap V × HImage V) :=
  let am := h.alloc (h.readCell img.metaRef)
  let ac := am.1.alloc (h.readCell img.compRef)
  match readCatalogs h img, readSources h img with
  | some cv, some sv =>
    let c0 := h.readCell img.compRef
    let afterCat : List (String × V) × Option V :=
      if (lookupA c0 "catalogs").isSome then (c0, some cv)
      else (upsert c0 "catalogs" cv, none)
    let afterSrc : List (String × V) × Option V :=
      if (lookupA afterCat.1 "_sources").isSome then (afterCat.1, some sv)
      else (upsert afterCat.1 "_sources" sv, none)
    Except.ok
      (ac.1.writeCell ac.2 afterSrc.1,
       ⟨if withData then img.data else none, am.2, ac.2, afterCat.2,
         afterSrc.2⟩)
  | _, _ => Except.error "AttributeError"

/-- `Image.set(name, value)` / `image.computed[name] = value`: mutate the
computed store through the image's reference. -/
def setComputed {V : Type} (h : Heap V) (img : HImage V) (k : String) (v : V) :
    Heap V :=
  h.writeCell img.compRef (upsert (h.readCell img.compRef) k v)

/-! ## Image container: cutout source recoordination (`Image.cutout`,
image.py lines 255-298)

The pixel windowing is done by astropy's `Cutout2D` (an external
collaborator); what is embedded is the source selection and recoordination:
`sources_in = np.all(np.abs(self.sources.coords - coords) < np.array(shape)[::-1] / 2, 1)`
and `_s.coords = _s.coords - coords + np.array(shape)[::-1] / 2`.  Source
coordinates are `(x, y)` pairs while `shape` is `(rows, cols)`, hence the
`[::-1]` reversal.  Coordinates are modelled over `ℚ`. -/

/-- A detected point source: an identifying payload and its `(x, y)`
coordinates. -/
structure Source where
  sid : Nat
  x : ℚ
  y : ℚ
deriving DecidableEq

/-- Image model for `cutout`: metadata/computed stores (deep-copied into the
cutout) and the attached sources. -/
structure SImage where
  metadata : List (String × ℚ)
  computed : List (String × ℚ)
  sources : List Source

/-- `np.all(np.abs(s.coords - coords) < np.array(shape)[::-1] / 2)` for one
source: both coordinate offsets strictly inside the half-window. `shape` is
`(rows, cols)`, so the x-extent is `shape.2` and the y-extent `shape.1`. -/
def inWindow (c : ℚ × ℚ) (shape : ℚ × ℚ) (s : Source) : Bool :=
  decide (|s.x - c.1| < shape.2 / 2) && decide (|s.y - c.2| < shape.1 / 2)

/-- `_s = s.copy(); _s.coords = _s.coords - coords + np.array(shape)[::-1]/2`. -/
def recoord (c : ℚ × ℚ) (shape : ℚ × ℚ) (s : Source) : Source :=
  { s with x := s.x - c.1 + shape.2 / 2, y := s.y - c.2 + shape.1 / 2 }

/-- `Image.cutout` source handling (image.py lines 281-298): when the image
has sources, keep those inside the window, recoordinated; the new image gets
deep copies of `metadata` and `computed`. -/
def cutoutImage (img : SImage) (c : ℚ × ℚ) (shape : ℚ × ℚ) : SImage :=
  { metadata := img.metadata
    computed := img.computed
    sources :=
      if img.sources.length > 0 then
        (img.sources.filter (inWindow c shape)).map (recoord c shape)
      else [] }

/-! ## Sequence serialization (`Sequence.as_dicts` / `Sequence.from_dicts`,
sequence.py lines 139-160) and the block-name keying of the `blocks` setter
(lines 34-39). -/

/-- A block as a reconstructible descriptor: its class (identified by a
number), its `name` attribute (possibly unset), and the `args`/`kwargs` it
was constructed with — the claims' assumption that blocks carry their
construction arguments. -/
structure BlockDescr where
  cls : Nat
  name : Option String
  args : List Nat
  kwargs : List (String × Nat)
deriving DecidableEq

/-- One entry of `Sequence.as_dicts`:
`dict(block=block.__class__, name=block.name, args=block.args,
kwargs=block.kwargs)`. -/
structure BlockDict where
  block : Nat
  name : Option String
  args : List Nat
  kwargs : List (String × Nat)
deriving DecidableEq

/-- `block_dict["block"](*block_dict["args"], **block_dict["kwargs"])` for a
descriptor-carrying block: constructing the class records the arguments; the
`name` attribute starts unset. -/
def constructBlock (c : Nat) (args : List Nat) (kwargs : List (String × Nat)) :
    BlockDescr :=
  ⟨c, none, args, kwargs⟩

/-- The key the `blocks` setter assigns to the block at position `i`:
`block.name if block.name is not None else "block{}".format(i)`. -/
def blockKey (i : Nat) (b : BlockDescr) : String :=
  match b.name with
  | some n => n
  | none => "block" ++ toString i

/-- The `blocks_dict` comprehension of the `blocks` setter, from position
`i` on; a repeated key overwrites in place (Python dict semantics). -/
def mkDictFrom (i : Nat) : List BlockDescr → List (String × BlockDescr) →
    List (String × BlockDescr)
  | [], d => d
  | b :: bs, d => mkDictFrom (i + 1) bs (upsert d (blockKey i b) b)

/-- `Sequence(blocks).blocks`: the values, in insertion order, of the blocks
dict built from the given list. -/
def seqBlocks (bs : List BlockDescr) : List BlockDescr :=
  (mkDictFrom 0 bs []).map (fun p => p.2)

/-- `Sequence.as_dicts` (lines 149-160). -/
def asDicts (bs : List BlockDescr) : List BlockDict :=
  bs.map (fun b => ⟨b.cls, b.name, b.args, b.kwargs⟩)

/-- `Sequence.from_dicts` (lines 139-147): reconstruct each block from its
descriptor, restore its `name`, and build a new `Sequence` from the list;
returns that sequence's block list. -/
def fromDicts (ds : List BlockDict) : List BlockDescr :=
  seqBlocks (ds.map (fun d => { constructBlock d.block d.args d.kwargs with
    name := d.name }))

/-- The keys the `blocks` setter would assign to a block list, from position
`i` on. -/
def blockKeysFrom (i : Nat) : List BlockDescr → List String
  | [] => []
  | b :: bs => blockKey i b :: blockKeysFrom (i + 1) bs

/-! ## Image attribute interception (`Image.__setattr__` / `__getattr__`,
image.py lines 378-394)

`__setattr__` stores through `object.__setattr__` when `hasattr(self, name)`
(which consults the instance `__dict__` and then `__getattr__`, i.e. the
computed store), and otherwise — once `"computed"` is in `self.__dict__` —
silently lands the value in the computed store.  The instance `__dict__` is
modelled as an ordered assoc list; class attributes (methods, properties)
are outside the model. -/

/-- A Python attribute value: enough structure to model the instance
dictionary, the computed store and plain scalars. -/
inductive PVal where
  | vnat : Nat → PVal
  | vstr : String → PVal
  | vbool : Bool → PVal
  | vnone : PVal
  | vdict : List (String × PVal) → PVal

/-- An `Image` instance as its `__dict__`. -/
structure PyImage where
  dict : List (String × PVal)

/-- The computed store, when `"computed"` is in `self.__dict__` and holds a
dict. -/
def computedStore (img : PyImage) : Option (List (String × PVal)) :=
  match lookupA img.dict "computed" with
  | some (PVal.vdict d) => some d
  | _ => none

/-- Attribute read: the instance `__dict__` first; on a miss,
`__getattr__` (image.py lines 387-394) falls through to the computed store
(`AttributeError`, i.e. `none`, when absent there too, or when `"computed"`
is not yet in `self.__dict__`). -/
def getattrM (img : PyImage) (name : String) : Option PVal :=
  match lookupA img.dict name with
  | some v => some v
  | none =>
    match lookupA img.dict "computed" with
    | some (PVal.vdict d) => lookupA d name
    | _ => none

/-- `hasattr(self, name)` as `__setattr__` sees it. -/
def hasattrM (img : PyImage) (name : String) : Bool :=
  (getattrM img name).isSome

/-- `Image.__setattr__` (image.py lines 378-385): an already-existing
attribute is set normally (`object.__setattr__`); otherwise, once the
computed store exists, the value lands in `self.computed[name]`; before that
(during `__init__`) it is a normal attribute set. -/
def setattrM (img : PyImage) (name : String) (v : PVal) : PyImage :=
  if hasattrM img name then ⟨upsert img.dict name v⟩
  else
    match lookupA img.dict "computed" with
    | some (PVal.vdict d) =>
      ⟨upsert img.dict "computed" (PVal.vdict (upsert d name v))⟩
    | _ => ⟨upsert img.dict name v⟩

/-- `Image.__init__` (image.py lines 24-32) through `__setattr__`: the
declared fields in assignment order, ending with the computed store. -/
def initImage (data : PVal) (metadata : List (String × PVal))
    (computed : List (String × PVal)) : PyImage :=
  let s0 : PyImage := ⟨[]⟩
  let s1 := setattrM s0 "data" data
  let s2 := setattrM s1 "metadata" (PVal.vdict metadata)
  let s3 := setattrM s2 "catalogs" (PVal.vdict [])
  let s4 := setattrM s3 "_sources" PVal.vnone
  let s5 := setattrM s4 "discard" (PVal.vbool false)
  let s6 := setattrM s5 "origin" PVal.vnone
  setattrM s6 "computed" (PVal.vdict computed)

/-! ## Concrete fixtures

Concrete blocks, images and sequences used to instantiate the theorems: the
three-block/five-image example scenario of the spec, a pre-discarded image,
and small `MPSequence` instances. -/

/-- Example-scenario block A: records its passage on the image payload. -/
def scnA : Block (List String) :=
  ⟨"A", fun im => { im with payload := im.payload ++ ["A"] }, false, 0⟩

/-- Example-scenario block B: records its passage and discards the images
with orchestrator-assigned index 1 or 3. -/
def scnB : Block (List String) :=
  ⟨"B", fun im =>
    { im with payload := im.payload ++ ["B"],
              discard := if im.i = 1 ∨ im.i = 3 then true else im.discard },
    false, 0⟩

/-- Example-scenario block C: records its passage on the image payload. -/
def scnC : Block (List String) :=
  ⟨"C", fun im => { im with payload := im.payload ++ ["C"] }, false, 0⟩

/-- The example scenario's chain `[A, B, C]`. -/
def scnBlocks : List (Block (List String)) := [scnA, scnB, scnC]

/-- A fresh, non-discarded input image for the example scenario. -/
def scnImage : Image (List String) := ⟨false, 0, []⟩

/-- A do-nothing block with the given class name. -/
def idBlock (n : String) : Block Unit := ⟨n, fun im => im, false, 0⟩

/-- An image whose `discard` flag is already true when the run starts. -/
def preDiscarded : Image Unit := ⟨true, 0, ()⟩

/-- A non-discarded unit image. -/
def unitImg : Image Unit := ⟨false, 0, ()⟩

/-- A plain main-chain block for the `MPSequence` fixtures. -/
def mainBlk : Block Unit := ⟨"Main", fun im => im, false, 0⟩

/-- A `DataBlock` instance (stateful accumulator). -/
def dataBlk : Block Unit := ⟨"Data", fun im => im, true, 0⟩

/-- A well-formed `MPSequence`: plain main chain, the accumulator supplied
via `data_blocks`. -/
def mpGood : MPSeq Unit := ⟨[mainBlk], some [dataBlk]⟩

/-- A misconfigured `MPSequence` with a `DataBlock` in the main chain. -/
def mpBad : MPSeq Unit := ⟨[mainBlk, dataBlk], none⟩

/-- Block list whose `blocks`-setter keys collide after a serialization
round trip: `"block1"`, `"block2"`, and an unnamed block at position 2
(key `"block2"`, overwriting the second). -/
def cexBlocksIn : List BlockDescr :=
  [⟨1, some "block1", [], []⟩, ⟨2, some "block2", [], []⟩, ⟨3, none, [], []⟩]

/-- A block list with non-colliding keys, for the round-trip witness. -/
def wBlocks : List BlockDescr :=
  [⟨1, some "Alpha", [2], [("x", 3)]⟩, ⟨2, none, [], []⟩]

/-- A two-cell heap: cell 0 is a metadata store, cell 1 a computed store. -/
def wHeap : Heap Nat := ⟨[[("exposure", 10)], [("fwhm", 3)]]⟩

/-- An image owning the two cells of `wHeap`, with instance `catalogs` and
`_sources` attributes (the layout `__init__` produces). -/
def wHImage : HImage Nat := ⟨some 7, 0, 1, some 77, some 88⟩

/-- A freshly constructed `Image` (empty metadata and computed stores). -/
def wPyImage : PyImage := initImage PVal.vnone [] []

/-! ## Association-list lemmas -/

theorem lookupA_append {β : Type} (l₁ l₂ : List (String × β)) (k : String) :
    lookupA (l₁ ++ l₂) k =
      match lookupA l₁ k with
      | some v => some v
      | none => lookupA l₂ k := by
  induction l₁ with
  | nil => rfl
  | cons p rest ih =>
    by_cases hp : p.1 = k
    · simp [lookupA, hp]
    · simp [lookupA, hp, ih]

theorem lookupA_map_upd {β : Type} (l : List (String × β)) (k k' : String)
    (v : β) :
    lookupA (l.map (fun p => if p.1 = k then (p.1, v) else p)) k' =
      (if k' = k then (lookupA l k).map (fun _ => v) else lookupA l k') := by
  induction l with
  | nil => simp [lookupA]
  | cons p rest ih =>
    by_cases hp : p.1 = k <;> by_cases hq : p.1 = k'
    · have hkk : k' = k := by rw [← hq, hp]
      simp [lookupA, hp, hq, hkk]
    · have hkk : ¬k' = k := fun hh => hq (by rw [hp, ← hh])
      have hkk2 : ¬k = k' := fun hh => hkk hh.symm
      simp [lookupA, hp, hq, ih, hkk, hkk2]
    · have hkk : ¬k' = k := fun hh => hp (by rw [hq, hh])
      simp [lookupA, hp, hq, hkk]
    · simp [lookupA, hp, hq, ih]

theorem lookupA_isSome_iff_any {β : Type} (l : List (String × β)) (k : String) :
    (lookupA l k).isSome = l.any (fun p => p.1 = k) := by
  induction l with
  | nil => rfl
  | cons p rest ih =>
    by_cases hp : p.1 = k
    · simp [lookupA, hp]
    · simp [lookupA, hp, ih]

theorem lookupA_eq_none_of_any_false {β : Type} (l : List (String × β))
    (k : String) (h : l.any (fun p => p.1 = k) = false) :
    lookupA l k = none := by
  cases hC : lookupA l k with
  | none => rfl
  | some w =>
    have h2 := lookupA_isSome_iff_any l k
    rw [h, hC] at h2
    simp at h2

theorem lookupA_upsert_self {β : Type} (l : List (String × β)) (k : String)
    (v : β) : lookupA (upsert l k v) k = some v := by
  unfold upsert
  by_cases hany : l.any (fun p => p.1 = k) = true
  · rw [if_pos hany, lookupA_map_upd, if_pos rfl]
    have hs : (lookupA l k).isSome = true := by
      rw [lookupA_isSome_iff_any]; exact hany
    obtain ⟨w, hw⟩ := Option.isSome_iff_exists.mp hs
    rw [hw]
    rfl
  · have hf : l.any (fun p => p.1 = k) = false := by
      revert hany
      cases l.any (fun p => p.1 = k) <;> simp
    rw [if_neg hany, lookupA_append, lookupA_eq_none_of_any_false l k hf]
    simp [lookupA]

theorem upsert_of_lookup_none {β : Type} (l : List (String × β)) (k : String)
    (v : β) (h : lookupA l k = none) : upsert l k v = l ++ [(k, v)] := by
  have hf : l.any (fun p => p.1 = k) = false := by
    rw [← lookupA_isSome_iff_any, h]
    rfl
  unfold upsert
  rw [if_neg (by simp [hf])]

theorem lookupA_upsert_ne {β : Type} (l : List (String × β)) (k k' : String)
    (v : β) (h : k' ≠ k) : lookupA (upsert l k v) k' = lookupA l k' := by
  unfold upsert
  by_cases hany : l.any (fun p => p.1 = k) = true
  · rw [if_pos hany, lookupA_map_upd, if_neg h]
  · rw [if_neg hany, lookupA_append]
    have hone : lookupA [(k, v)] k' = none := by
      simp [lookupA]
      exact fun hh => absurd hh.symm h
    rw [hone]
    cases lookupA l k' <;> rfl

/-! ## Characterization of the per-image block loop -/

theorem runImageGo_discarded_dm {α : Type} (allB : List (Block α))
    (l : List (Nat × Block α)) (img : Image α) (cause : Option String)
    (h : img.discard = true) :
    runImageGo allB l img true cause = ⟨img, [], true, cause⟩ := by
  induction l with
  | nil => rfl
  | cons p rest ih =>
    obtain ⟨b, blk⟩ := p
    simp [runImageGo, h, ih]

theorem runImageGo_discarded_first {α : Type} (allB : List (Block α)) (b : Nat)
    (blk : Block α) (rest : List (Nat × Block α)) (img : Image α)
    (cause : Option String) (h : img.discard = true) :
    runImageGo allB ((b, blk) :: rest) img false cause =
      ⟨img, [], true, some (pyPrev allB b)⟩ := by
  simp [runImageGo, h, runImageGo_discarded_dm allB rest img _ h]

theorem firstSkip_cons_active {α : Type} (blk : Block α) (rest : List (Block α))
    (img : Image α) (h : img.discard = false) :
    firstSkip (blk :: rest) img = (firstSkip rest (blk.run img)).map (· + 1) := by
  simp [firstSkip, h]

theorem ranCount_cons_active {α : Type} (blk : Block α) (rest : List (Block α))
    (img : Image α) (h : img.discard = false) :
    ranCount (blk :: rest) img = ranCount rest (blk.run img) + 1 := by
  unfold ranCount
  rw [firstSkip_cons_active blk rest img h]
  cases firstSkip rest (blk.run img) <;> simp

theorem foldRun_cons {α : Type} (blk : Block α) (l : List (Block α))
    (img : Image α) : foldRun (blk :: l) img = foldRun l (blk.run img) := rfl

theorem runImageGo_spec {α : Type} (allB : List (Block α)) :
    ∀ (bs : List (Block α)) (s : Nat) (img : Image α) (cause : Option String),
    img.discard = false →
    runImageGo allB (List.enumFrom s bs) img false cause =
      ⟨foldRun (bs.take (ranCount bs img)) img,
       List.range' s (ranCount bs img),
       (firstSkip bs img).isSome,
       match firstSkip bs img with
       | none => cause
       | some m => some (pyPrev allB (s + m))⟩ := by
  intro bs
  induction bs with
  | nil => intro s img cause h; rfl
  | cons blk rest ih =>
    intro s img cause h
    rw [List.enumFrom_cons]
    have hfs := firstSkip_cons_active blk rest img h
    have hunf : runImageGo allB ((s, blk) :: List.enumFrom (s + 1) rest) img
        false cause =
        ⟨(runImageGo allB (List.enumFrom (s + 1) rest) (blk.run img) false
            cause).image,
         s :: (runImageGo allB (List.enumFrom (s + 1) rest) (blk.run img) false
            cause).invoked,
         (runImageGo allB (List.enumFrom (s + 1) rest) (blk.run img) false
            cause).dm,
         (runImageGo allB (List.enumFrom (s + 1) rest) (blk.run img) false
            cause).cause⟩ := by
      simp [runImageGo, h]
    rw [hunf]
    by_cases h2 : (blk.run img).discard = false
    · rw [ih (s + 1) (blk.run img) cause h2, ranCount_cons_active blk rest img h,
        hfs]
      cases hfs2 : firstSkip rest (blk.run img) with
      | none => simp [List.take_succ_cons, foldRun_cons, List.range'_succ]
      | some m =>
        have harith : s + 1 + m = s + (m + 1) := by omega
        simp [List.take_succ_cons, foldRun_cons, List.range'_succ, harith]
    · have h2' : (blk.run img).discard = true := by
        simpa using h2
      cases rest with
      | nil =>
        have hfs0 : firstSkip [blk] img = none := by
          simpa using hfs
        have hrc : ranCount [blk] img = 1 := by
          unfold ranCount
          rw [hfs0]
          rfl
        rw [hfs0, hrc]
        simp [runImageGo, List.enumFrom, foldRun, List.range'_succ]
      | cons blk2 rest2 =>
        have hfs2 : firstSkip (blk2 :: rest2) (blk.run img) = some 0 := by
          simp [firstSkip, h2']
        have hfs1 : firstSkip (blk :: blk2 :: rest2) img = some 1 := by
          rw [hfs, hfs2]
          rfl
        have hrc : ranCount (blk :: blk2 :: rest2) img = 1 := by
          unfold ranCount
          rw [hfs1]
          rfl
        have hrest := runImageGo_discarded_first allB (s + 1) blk2
          (List.enumFrom (s + 1 + 1) rest2) (blk.run img) cause h2'
        rw [List.enumFrom_cons, hrest, hfs1, hrc]
        simp [foldRun, List.take_succ_cons, List.range'_succ]

theorem ranCount_le_of_discard {α : Type} :
    ∀ (bs : List (Block α)) (img : Image α) (n : Nat),
    (foldRun (bs.take n) img).discard = true → ranCount bs img ≤ n := by
  intro bs
  induction bs with
  | nil =>
    intro img n _
    simp [ranCount, firstSkip]
  | cons blk rest ih =>
    intro img n hn
    by_cases h : img.discard = true
    · have : ranCount (blk :: rest) img = 0 := by
        unfold ranCount firstSkip
        rw [if_pos h]
        rfl
      omega
    · have h' : img.discard = false := by
        simpa using h
      cases n with
      | zero =>
        rw [List.take_zero] at hn
        rw [show foldRun [] img = img from rfl] at hn
        rw [hn] at h'
        cases h'
      | succ n2 =>
        rw [ranCount_cons_active blk rest img h']
        have hn2 : (foldRun (rest.take n2) (blk.run img)).discard = true := by
          rw [List.take_succ_cons, foldRun_cons] at hn
          exact hn
        exact Nat.succ_le_succ (ih (blk.run img) n2 hn2)

/-! ## The outer image loop -/

theorem seqLoop_nP {α : Type} (blocks : List (Block α)) (ld : Bool) :
    ∀ (imgs : List (Image α)) (i nP : Nat) (d : List (String × List String))
      (w : List String),
    (seqLoop blocks ld i imgs nP d w).1 = nP + imgs.length := by
  intro imgs
  induction imgs with
  | nil => intro i nP d w; rfl
  | cons im rest ih =>
    intro i nP d w
    simp only [seqLoop]
    rw [ih]
    simp only [List.length_cons]
    omega

theorem seqLoop_results {α : Type} (blocks : List (Block α)) (ld : Bool) :
    ∀ (imgs : List (Image α)) (i nP : Nat) (d : List (String × List String))
      (w : List String),
    (seqLoop blocks ld i imgs nP d w).2.1 =
      (List.enumFrom i imgs).map (fun p => runImage blocks p.1 p.2) := by
  intro imgs
  induction imgs with
  | nil => intro i nP d w; rfl
  | cons im rest ih =>
    intro i nP d w
    simp only [seqLoop, List.enumFrom_cons, List.map_cons]
    rw [ih]

theorem enum_eq_enumFrom {α : Type} (l : List α) :
    l.enum = List.enumFrom 0 l := rfl

theorem seqRun_ok_inv {α : Type} (blocks : List (Block α))
    (imgs : List (Image α)) (ld t : Bool) (r : RunResult α)
    (h : seqRun blocks (some imgs) ld t = Except.ok r) :
    r.nProcessedImages = imgs.length ∧
    r.results = imgs.enum.map (fun p => runImage blocks p.1 p.2) ∧
    r.discards = (seqLoop blocks ld 0 imgs 0 [] []).2.2.1 ∧
    r.blocks = (if t then terminateBlocks blocks else blocks) := by
  simp only [seqRun] at h
  by_cases hl : imgs.length = 0
  · rw [if_pos hl] at h
    cases h
  · rw [if_neg hl] at h
    injection h with h2
    subst h2
    refine ⟨?_, ?_, rfl, rfl⟩
    · show (seqLoop blocks ld 0 imgs 0 [] []).1 = imgs.length
      rw [seqLoop_nP blocks ld imgs 0 0 [] []]
      omega
    · show (seqLoop blocks ld 0 imgs 0 [] []).2.1 = _
      rw [seqLoop_results blocks ld imgs 0 0 [] [], enum_eq_enumFrom]

/-! ## Discard-tally lemmas -/

theorem lookupA_mapApp (d : List (String × List String)) (k k' v : String) :
    lookupA (d.map (fun p => if p.1 = k then (p.1, p.2 ++ [v]) else p)) k' =
      (if k' = k then (lookupA d k).map (fun l2 => l2 ++ [v])
       else lookupA d k') := by
  induction d with
  | nil => simp [lookupA]
  | cons p rest ih =>
    by_cases hp : p.1 = k <;> by_cases hq : p.1 = k'
    · have hkk : k' = k := by rw [← hq, hp]
      simp [lookupA, hp, hq, hkk]
    · have hkk : ¬k' = k := fun hh => hq (by rw [hp, ← hh])
      have hkk2 : ¬k = k' := fun hh => hkk hh.symm
      simp [lookupA, hp, hq, ih, hkk, hkk2]
    · have hkk : ¬k' = k := fun hh => hp (by rw [hq, hh])
      simp [lookupA, hp, hq, hkk]
    · simp [lookupA, hp, hq, ih]

theorem lookupA_addDiscard_self (d : List (String × List String))
    (k v : String) :
    lookupA (addDiscard d k v) k = some (((lookupA d k).getD []) ++ [v]) := by
  unfold addDiscard
  by_cases hany : d.any (fun p => p.1 = k) = true
  · rw [if_pos hany, lookupA_mapApp, if_pos rfl]
    have hs : (lookupA d k).isSome = true := by
      rw [lookupA_isSome_iff_any]
      exact hany
    obtain ⟨w, hw⟩ := Option.isSome_iff_exists.mp hs
    rw [hw]
    rfl
  · have hf : d.any (fun p => p.1 = k) = false := by
      revert hany
      cases d.any (fun p => p.1 = k) <;> simp
    rw [if_neg hany, lookupA_append, lookupA_eq_none_of_any_false d k hf]
    simp [lookupA]

theorem lookupA_addDiscard_ne (d : List (String × List String))
    (k v k' : String) (h : k' ≠ k) :
    lookupA (addDiscard d k v) k' = lookupA d k' := by
  unfold addDiscard
  by_cases hany : d.any (fun p => p.1 = k) = true
  · rw [if_pos hany, lookupA_mapApp, if_neg h]
  · rw [if_neg hany, lookupA_append]
    have hone : lookupA [(k, v :: [])] k' = none := by
      simp [lookupA]
      exact fun hh => absurd hh.symm h
    rw [hone]
    cases lookupA d k' <;> rfl

theorem addDiscard_keys (d : List (String × List String)) (k v : String) :
    (addDiscard d k v).map Prod.fst =
      (if d.any (fun p => p.1 = k) = true then d.map Prod.fst
       else d.map Prod.fst ++ [k]) := by
  unfold addDiscard
  by_cases hany : d.any (fun p => p.1 = k) = true
  · rw [if_pos hany, if_pos hany, List.map_map]
    congr 1
    funext p
    by_cases hp : p.1 = k <;> simp [hp]
  · rw [if_neg hany, if_neg hany]
    simp

theorem addDiscard_keys_nodup (d : List (String × List String)) (k v : String)
    (h : (d.map Prod.fst).Nodup) :
    ((addDiscard d k v).map Prod.fst).Nodup := by
  rw [addDiscard_keys]
  by_cases hany : d.any (fun p => p.1 = k) = true
  · rw [if_pos hany]
    exact h
  · rw [if_neg hany]
    have hf : d.any (fun p => p.1 = k) = false := by
      revert hany
      cases d.any (fun p => p.1 = k) <;> simp
    have hnot : k ∉ d.map Prod.fst := by
      intro hmem
      obtain ⟨p, hp, hpk⟩ := List.mem_map.mp hmem
      have hT : d.any (fun p => p.1 = k) = true :=
        List.any_eq_true.mpr ⟨p, hp, by simp [hpk]⟩
      rw [hf] at hT
      cases hT
    refine List.Nodup.append h (List.nodup_singleton k) ?_
    intro a ha hb
    rw [List.mem_singleton] at hb
    subst hb
    exact hnot ha

theorem seqLoop_discards_lookup {α : Type} (blocks : List (Block α)) :
    ∀ (imgs : List (Image α)) (i nP : Nat)
      (d : List (String × List String)) (w : List String) (name : String),
    lookupA ((seqLoop blocks false i imgs nP d w).2.2.1) name =
      (match lookupA d name with
       | some l => some (l ++ causeIdxs blocks name i imgs)
       | none =>
         if causeIdxs blocks name i imgs = [] then none
         else some (causeIdxs blocks name i imgs)) := by
  intro imgs
  induction imgs with
  | nil =>
    intro i nP d w name
    simp only [seqLoop, causeIdxs]
    cases lookupA d name <;> simp
  | cons im rest ih =>
    intro i nP d w name
    simp only [seqLoop]
    cases hc : (runImage blocks i im).cause with
    | none =>
      simp only [hc]
      rw [ih]
      simp [causeIdxs, hc]
    | some nm =>
      simp only [hc, Bool.false_eq_true, if_false]
      rw [ih]
      by_cases hname : nm = name
      · subst hname
        rw [lookupA_addDiscard_self d nm (toString i)]
        cases hdl : lookupA d nm <;>
          simp [causeIdxs, hc, hdl, List.append_assoc]
      · rw [lookupA_addDiscard_ne d nm (toString i) name
          (fun hh => hname hh.symm)]
        cases hdl : lookupA d name <;>
          simp [causeIdxs, hc, hdl, hname]

theorem seqLoop_discards_nodup {α : Type} (blocks : List (Block α)) :
    ∀ (imgs : List (Image α)) (i nP : Nat)
      (d : List (String × List String)) (w : List String),
    (d.map Prod.fst).Nodup →
    (((seqLoop blocks false i imgs nP d w).2.2.1).map Prod.fst).Nodup := by
  intro imgs
  induction imgs with
  | nil => intro i nP d w h; exact h
  | cons im rest ih =>
    intro i nP d w h
    cases hc : (runImage blocks i im).cause with
    | none =>
      have he : (seqLoop blocks false i (im :: rest) nP d w).2.2.1 =
          (seqLoop blocks false (i + 1) rest (nP + 1) d w).2.2.1 := by
        simp only [seqLoop, hc]
      rw [he]
      exact ih (i + 1) (nP + 1) d w h
    | some nm =>
      have he : (seqLoop blocks false i (im :: rest) nP d w).2.2.1 =
          (seqLoop blocks false (i + 1) rest (nP + 1)
            (addDiscard d nm (toString i)) w).2.2.1 := by
        simp only [seqLoop, hc, Bool.false_eq_true, if_false]
      rw [he]
      exact ih (i + 1) (nP + 1) (addDiscard d nm (toString i)) w
        (addDiscard_keys_nodup d nm (toString i) h)

/-! ## First-skip characterization -/

theorem firstSkip_eq_some_iff {α : Type} :
    ∀ (bs : List (Block α)) (img : Image α) (m : Nat),
    firstSkip bs img = some m ↔
      (m < bs.length ∧ (foldRun (bs.take m) img).discard = true ∧
        ∀ j, j < m → (foldRun (bs.take j) img).discard = false) := by
  intro bs
  induction bs with
  | nil =>
    intro img m
    constructor
    · intro h
      cases h
    · intro ⟨h1, _, _⟩
      simp at h1
  | cons blk rest ih =>
    intro img m
    by_cases h : img.discard = true
    · have hfs : firstSkip (blk :: rest) img = some 0 := by
        simp [firstSkip, h]
      rw [hfs]
      constructor
      · intro he
        injection he with he2
        subst he2
        refine ⟨Nat.succ_pos _, by simpa [foldRun] using h, ?_⟩
        intro j hj
        omega
      · intro ⟨h1, h2, h3⟩
        cases m with
        | zero => rfl
        | succ m2 =>
          have hz := h3 0 (Nat.succ_pos m2)
          rw [show foldRun ((blk :: rest).take 0) img = img from rfl] at hz
          rw [h] at hz
          cases hz
    · have h' : img.discard = false := by
        simpa using h
      have hfs := firstSkip_cons_active blk rest img h'
      rw [hfs]
      cases m with
      | zero =>
        constructor
        · intro he
          cases hy : firstSkip rest (blk.run img) with
          | none =>
            rw [hy] at he
            cases he
          | some y =>
            rw [hy] at he
            simp at he
        · intro ⟨h1, h2, h3⟩
          rw [show foldRun ((blk :: rest).take 0) img = img from rfl] at h2
          rw [h2] at h'
          cases h'
      | succ m2 =>
        have hiff := ih (blk.run img) m2
        constructor
        · intro he
          have hy : firstSkip rest (blk.run img) = some m2 := by
            cases hy2 : firstSkip rest (blk.run img) with
            | none =>
              rw [hy2] at he
              cases he
            | some y =>
              rw [hy2] at he
              simp at he
              rw [he]
          obtain ⟨g1, g2, g3⟩ := hiff.mp hy
          refine ⟨by simpa using Nat.succ_lt_succ g1, ?_, ?_⟩
          · rw [List.take_succ_cons, foldRun_cons]
            exact g2
          · intro j hj
            cases j with
            | zero => simpa [foldRun] using h'
            | succ j2 =>
              rw [List.take_succ_cons, foldRun_cons]
              exact g3 j2 (by omega)
        · intro ⟨h1, h2, h3⟩
          have g2 : (foldRun (rest.take m2) (blk.run img)).discard = true := by
            rw [List.take_succ_cons, foldRun_cons] at h2
            exact h2
          have g3 : ∀ j, j < m2 →
              (foldRun (rest.take j) (blk.run img)).discard = false := by
            intro j hj
            have hjj := h3 (j + 1) (by omega)
            rw [List.take_succ_cons, foldRun_cons] at hjj
            exact hjj
          have g1 : m2 < rest.length := by
            simpa using Nat.lt_of_succ_lt_succ h1
          rw [hiff.mpr ⟨g1, g2, g3⟩]
          rfl

theorem runImage_cause_iff {α : Type} (blocks : List (Block α)) (i : Nat)
    (img : Image α) (h : img.discard = false) (name : String) :
    (runImage blocks i img).cause = some name ↔
      ∃ k, (∃ blk, blocks.get? k = some blk ∧ blk.className = name) ∧
        k + 1 < blocks.length ∧
        (∀ j, j ≤ k →
          (runPrefix blocks j { img with i := i }).discard = false) ∧
        (runPrefix blocks (k + 1) { img with i := i }).discard = true := by
  have h0 : ({ img with i := i } : Image α).discard = false := h
  have hspec := runImageGo_spec blocks blocks 0 { img with i := i } none h0
  have hcause : (runImage blocks i img).cause =
      (match firstSkip blocks { img with i := i } with
       | none => none
       | some m => some (pyPrev blocks (0 + m))) := by
    rw [runImage, enum_eq_enumFrom, hspec]
  rw [hcause]
  constructor
  · intro hc
    cases hy : firstSkip blocks { img with i := i } with
    | none =>
      simp only [hy] at hc
      cases hc
    | some m =>
      simp only [hy] at hc
      injection hc with hc2
      obtain ⟨g1, g2, g3⟩ :=
        (firstSkip_eq_some_iff blocks { img with i := i } m).mp hy
      cases m with
      | zero =>
        rw [show foldRun (blocks.take 0) { img with i := i } =
          { img with i := i } from rfl] at g2
        rw [g2] at h0
        cases h0
      | succ k =>
        have hklt : k < blocks.length := by omega
        have hget : blocks.get? k = some (blocks.get ⟨k, hklt⟩) :=
          List.get?_eq_get hklt
        refine ⟨k, ⟨blocks.get ⟨k, hklt⟩, hget, ?_⟩, g1, ?_, g2⟩
        · rw [← hc2]
          unfold pyPrev
          rw [if_neg (by omega : ¬(0 + (k + 1) = 0)),
            (by omega : 0 + (k + 1) - 1 = k)]
          simp only [hget]
        · intro j hj
          exact g3 j (by omega)
  · rintro ⟨k, ⟨blk, hget, hname⟩, hlen, hall, htrue⟩
    have hy : firstSkip blocks { img with i := i } = some (k + 1) :=
      (firstSkip_eq_some_iff blocks { img with i := i } (k + 1)).mpr
        ⟨hlen, htrue, fun j hj => hall j (by omega)⟩
    simp only [hy]
    have hp : pyPrev blocks (0 + (k + 1)) = name := by
      unfold pyPrev
      rw [if_neg (by omega : ¬(0 + (k + 1) = 0)),
        (by omega : 0 + (k + 1) - 1 = k)]
      simp only [hget]
      exact hname
    rw [hp]

/-! ## MPSequence lemmas -/

theorem feedData_eq {α : Type} (dbs : List (Block α)) (img : Image α) :
    feedData dbs img = dbs := rfl

theorem foldl_feedData {α : Type} (dbs : List (Block α))
    (l : List (ImgResult α)) :
    l.foldl (fun acc r => feedData acc r.image) dbs = dbs := by
  induction l generalizing dbs with
  | nil => rfl
  | cons x xs ih => simp [List.foldl_cons, feedData_eq, ih]

/-! ## Claim theorems -/

/-- Claim C1: discard short-circuit invariant. For every image, if the block
at index `k` sets `discard` (the image enters it non-discarded and leaves the
`k+1`-block prefix discarded), then no block with index greater than `k` has
its `run` invoked on that image; and each image of the batch is processed
independently of the others (blocks with index below `k` behave on other
images exactly as `runImage` on those images alone prescribes). -/
theorem discard_short_circuit {α : Type} (blocks : List (Block α))
    (img : Image α) (i k : Nat) (hk : k < blocks.length)
    (hbefore : ∀ m, m ≤ k → (runPrefix blocks m { img with i := i }).discard = false)
    (hset : (runPrefix blocks (k + 1) { img with i := i }).discard = true) :
    (∀ j ∈ (runImage blocks i img).invoked, j ≤ k) ∧
    (∀ (imgs : List (Image α)) (ld t : Bool) (r : RunResult α),
      seqRun blocks (some imgs) ld t = Except.ok r →
      r.results = imgs.enum.map (fun p => runImage blocks p.1 p.2)) := by
  constructor
  · intro j hj
    have h0 : ({ img with i := i } : Image α).discard = false :=
      hbefore 0 (Nat.zero_le k)
    have hspec := runImageGo_spec blocks blocks 0 { img with i := i } none h0
    rw [runImage, enum_eq_enumFrom, hspec] at hj
    have hj2 : j ∈ List.range' 0 (ranCount blocks { img with i := i }) := hj
    have hle : ranCount blocks { img with i := i } ≤ k + 1 :=
      ranCount_le_of_discard blocks { img with i := i } (k + 1) hset
    have hm := List.mem_range'_1.mp hj2
    omega
  · intro imgs ld t r hr
    exact (seqRun_ok_inv blocks imgs ld t r hr).2.1

/-- Witness for C1: in the example chain `[A, B, C]`, block `B` (index 1)
discards the image with orchestrator index 1, and indeed only blocks 0 and 1
ran on it. -/
theorem discard_short_circuit_witness :
    ((1 : Nat) < scnBlocks.length ∧
      (runPrefix scnBlocks 2 { scnImage with i := 1 }).discard = true) ∧
    (∀ j ∈ (runImage scnBlocks 1 scnImage).invoked, j ≤ 1) :=
  ⟨⟨by decide, by decide⟩,
    (discard_short_circuit scnBlocks scnImage 1 1 (by decide)
      (fun m hm => by interval_cases m <;> decide) (by decide)).1⟩

/-- Claim C3: `n_processed_images` equals the input count for every
non-empty input, discarded images included; and in the three-block,
five-image scenario where `B` discards images 1 and 3, the run ends with
`n_processed_images = 5`, images 0, 2, 4 run through all three blocks,
images 1 and 3 through the first two only, and the batched report charges
block `"B"` with images `"1"` and `"3"`. -/
theorem processed_count_and_scenario :
    (∀ (α : Type) (blocks : List (Block α)) (imgs : List (Image α))
      (ld t : Bool), imgs ≠ [] →
      ∃ r, seqRun blocks (some imgs) ld t = Except.ok r ∧
        r.nProcessedImages = imgs.length) ∧
    ((seqRun scnBlocks (some (List.replicate 5 scnImage)) false
        true).toOption.map (fun r => r.nProcessedImages) = some 5 ∧
     (seqRun scnBlocks (some (List.replicate 5 scnImage)) false
        true).toOption.map (fun r => r.results.map (fun rr => rr.invoked)) =
       some [[0, 1, 2], [0, 1], [0, 1, 2], [0, 1], [0, 1, 2]] ∧
     (seqRun scnBlocks (some (List.replicate 5 scnImage)) false
        true).toOption.map (fun r => r.results.map (fun rr => rr.image.payload)) =
       some [["A", "B", "C"], ["A", "B"], ["A", "B", "C"], ["A", "B"],
         ["A", "B", "C"]] ∧
     (seqRun scnBlocks (some (List.replicate 5 scnImage)) false
        true).toOption.map (fun r => r.discards) = some [("B", ["1", "3"])]) := by
  constructor
  · intro α blocks imgs ld t h
    cases imgs with
    | nil => exact absurd rfl h
    | cons x xs =>
      exact ⟨_, rfl, (seqRun_ok_inv blocks (x :: xs) ld t _ rfl).1⟩
  · exact ⟨rfl, rfl, rfl, rfl⟩

/-- Claim C4: `Sequence.run` aborts with the fatal "No images to process"
error on a null or empty image list, before loading or processing anything
(the error carries no partial results), and no such validation error occurs
for a non-empty list. -/
theorem empty_input_abort : ∀ (α : Type) (blocks : List (Block α))
    (ld t : Bool),
    seqRun blocks none ld t = Except.error "No images to process" ∧
    seqRun blocks (some []) ld t = Except.error "No images to process" ∧
    (∀ imgs : List (Image α), imgs ≠ [] →
      ∃ r, seqRun blocks (some imgs) ld t = Except.ok r) := by
  intro α blocks ld t
  refine ⟨rfl, rfl, ?_⟩
  intro imgs h
  cases imgs with
  | nil => exact absurd rfl h
  | cons x xs => exact ⟨_, rfl⟩

/-- Claim C5: an `MPSequence` whose main chain contains a `DataBlock`
instance aborts with the fatal configuration error for every input — the
guard runs before the input check, the pool and any processing, so the
error is returned unconditionally and no image result is produced. -/
theorem mp_data_block_guard {α : Type} (m : MPSeq α)
    (images : Option (List (Image α))) (t : Bool)
    (h : hasBadDataBlocks m = true) :
    mpRun m images t = Except.error "Data blocks cannot be used in MPSequence" := by
  unfold mpRun
  rw [if_pos h]

/-- Witness for C5: the fixture with a `DataBlock` in its main chain aborts. -/
theorem mp_data_block_guard_witness :
    hasBadDataBlocks mpBad = true ∧
    mpRun mpBad (some [unitImg]) true =
      Except.error "Data blocks cannot be used in MPSequence" :=
  ⟨rfl, mp_data_block_guard mpBad (some [unitImg]) true rfl⟩

/-- Claim C9: for every completed `MPSequence.run` with `terminate = true`,
`terminate()` is invoked exactly once on each data block (via the data
sub-sequence: their terminate counters are all bumped by one) and never on
any main-chain block (the main-chain blocks come back unchanged). -/
theorem mp_terminate_asymmetry {α : Type} (m : MPSeq α)
    (images : Option (List (Image α))) (r : MPRunResult α)
    (h : mpRun m images true = Except.ok r) :
    r.blocksAfter = m.blocks ∧
    r.dataBlocksAfter = m.dataBlocks.map terminateBlocks := by
  by_cases hbad : hasBadDataBlocks m = true
  · simp only [mpRun, if_pos hbad] at h
    cases h
  · cases images with
    | none =>
      simp only [mpRun, if_neg hbad] at h
      cases h
    | some imgs =>
      simp only [mpRun, if_neg hbad] at h
      by_cases hl : imgs.length = 0
      · rw [if_pos hl] at h
        cases h
      · rw [if_neg hl] at h
        injection h with h2
        subst h2
        refine ⟨rfl, ?_⟩
        cases hdb : m.dataBlocks with
        | none => simp [hdb]
        | some dbs => simp [hdb, foldl_feedData]

/-- Witness for C9: a parallel run over one image with one main block and
one data block terminates the data block exactly once and leaves the main
chain untouched. -/
theorem mp_terminate_asymmetry_witness :
    dataBlk.termCount = 0 ∧
    (∃ r, mpRun mpGood (some [unitImg]) true = Except.ok r ∧
      r.blocksAfter = mpGood.blocks ∧
      r.dataBlocksAfter = some [{ dataBlk with termCount := 1 }]) := by
  refine ⟨rfl, ?_⟩
  obtain ⟨r, hr⟩ : ∃ r, mpRun mpGood (some [unitImg]) true = Except.ok r :=
    ⟨_, rfl⟩
  have h2 := mp_terminate_asymmetry mpGood (some [unitImg]) r hr
  refine ⟨r, hr, h2.1, ?_⟩
  rw [h2.2]
  rfl

/-- Claim C2 (amended: restricted to runs whose images all enter with
`discard = false`; an image that is already discarded before block 0 is
reported under the name of the *last* block of the chain, Python's
`blocks[-1]`, not under a preceding block). For such runs in batched mode
the report is exact: for every block name the recorded entry is precisely
the ordered list of stringified indices of the images whose first-skip cause
is that name (no entry otherwise — no duplicates, no omissions), there is
one entry (one summary warning) per causing block, and an image's recorded
cause is `name` exactly when the block that first set its `discard` flag —
non-discarded `k`-block prefix, discarded `k+1`-block prefix, with a block
following it to observe the flag — has class name `name`. -/
theorem batched_discard_report {α : Type} (blocks : List (Block α))
    (imgs : List (Image α)) (r : RunResult α)
    (h0 : ∀ im ∈ imgs, im.discard = false)
    (hr : seqRun blocks (some imgs) false true = Except.ok r) :
    (∀ name, lookupA r.discards name =
      (if causeIdxs blocks name 0 imgs = [] then none
       else some (causeIdxs blocks name 0 imgs))) ∧
    (r.discards.map Prod.fst).Nodup ∧
    (∀ i im, imgs.get? i = some im → ∀ name,
      ((runImage blocks i im).cause = some name ↔
        ∃ k, (∃ blk, blocks.get? k = some blk ∧ blk.className = name) ∧
          k + 1 < blocks.length ∧
          (∀ j, j ≤ k →
            (runPrefix blocks j { im with i := i }).discard = false) ∧
          (runPrefix blocks (k + 1) { im with i := i }).discard = true)) := by
  have hd : r.discards = (seqLoop blocks false 0 imgs 0 [] []).2.2.1 :=
    (seqRun_ok_inv blocks imgs false true r hr).2.2.1
  refine ⟨?_, ?_, ?_⟩
  · intro name
    rw [hd, seqLoop_discards_lookup blocks imgs 0 0 [] [] name]
    rfl
  · rw [hd]
    exact seqLoop_discards_nodup blocks imgs 0 0 [] [] (by simp)
  · intro i im hget name
    exact runImage_cause_iff blocks i im (h0 im (List.get?_mem hget)) name

/-- Witness for C2: the example scenario, whose five images all start
non-discarded; the report records exactly `("B", ["1", "3"])` with no
duplicate keys. -/
theorem batched_discard_report_witness :
    (∀ im ∈ List.replicate 5 scnImage, im.discard = false) ∧
    (∃ r, seqRun scnBlocks (some (List.replicate 5 scnImage)) false true =
        Except.ok r ∧
      lookupA r.discards "B" = some ["1", "3"] ∧
      (r.discards.map Prod.fst).Nodup) := by
  refine ⟨by decide, ?_⟩
  obtain ⟨r, hr⟩ : ∃ r, seqRun scnBlocks (some (List.replicate 5 scnImage))
      false true = Except.ok r := ⟨_, rfl⟩
  have h2 := batched_discard_report scnBlocks (List.replicate 5 scnImage) r
    (by decide) hr
  refine ⟨r, hr, ?_, h2.2.1⟩
  rw [h2.1 "B"]
  decide

/-- Counterexample to C2 as frozen: an image whose `discard` flag is already
true when the run starts is reported, and the block recorded as its cause is
`blocks[0-1]`, i.e. the *last* block `"B"` (Python negative indexing) — a
block that never ran on it, comes after the first skipped block rather than
immediately before it, and never set the flag (the flag is true after every
prefix, including the empty one, so no block set it). So the emitted set of
pairs is `{("B", "0")}` while the set described by the claim is empty. -/
theorem batched_discard_report_counterexample :
    (∃ r, seqRun [idBlock "A", idBlock "B"] (some [preDiscarded]) false true =
        Except.ok r ∧ r.discards = [("B", ["0"])]) ∧
    (runImage [idBlock "A", idBlock "B"] 0 preDiscarded).invoked = [] ∧
    (∀ m : Nat,
      (runPrefix [idBlock "A", idBlock "B"] m preDiscarded).discard = true) := by
  refine ⟨⟨_, rfl, rfl⟩, rfl, ?_⟩
  intro m
  match m with
  | 0 => rfl
  | 1 => rfl
  | n + 2 =>
    have ht : List.take (n + 2) [idBlock "A", idBlock "B"] =
        [idBlock "A", idBlock "B"] :=
      List.take_all_of_le (by simp)
    show (foldRun (List.take (n + 2) [idBlock "A", idBlock "B"])
      preDiscarded).discard = true
    rw [ht]
    rfl

/-! ## Heap lemmas for copy independence -/

theorem readCell_alloc_old {V : Type} (h : Heap V) (c : List (String × V))
    (r : Nat) (hr : r < h.cells.length) :
    (h.alloc c).1.readCell r = h.readCell r := by
  unfold Heap.alloc Heap.readCell
  simp [List.getElem?_append_left hr]

theorem readCell_alloc_new {V : Type} (h : Heap V) (c : List (String × V)) :
    (h.alloc c).1.readCell (h.alloc c).2 = c := by
  unfold Heap.alloc Heap.readCell
  simp [List.get?_concat_length]

theorem readCell_write_self {V : Type} (h : Heap V) (r : Nat)
    (c : List (String × V)) (hr : r < h.cells.length) :
    (h.writeCell r c).readCell r = c := by
  unfold Heap.writeCell Heap.readCell
  rw [List.get?_set_eq, List.get?_eq_get hr]
  rfl

theorem readCell_write_ne {V : Type} (h : Heap V) (r r2 : Nat)
    (c : List (String × V)) (hne : r ≠ r2) :
    (h.writeCell r c).readCell r2 = h.readCell r2 := by
  unfold Heap.writeCell Heap.readCell
  rw [List.get?_set_ne _ _ hne]

theorem writeCell_length {V : Type} (h : Heap V) (r : Nat)
    (c : List (String × V)) :
    (h.writeCell r c).cells.length = h.cells.length := by
  unfold Heap.writeCell
  simp [List.length_set]

/-- Claim C6: `Image.cutout` recoordination. The cutout keeps the (deep
copies of the) metadata and computed stores, and its attached sources are
exactly the sources of the original lying strictly within the window around
`c` (per-axis offset below half the window extent on that axis — `shape` is
`(rows, cols)`, so the x-extent is `shape.2`), each carried over with its
new coordinate equal to `original - center + half-extent` on each axis;
sources outside the window are excluded. -/
theorem cutout_recoordination (img : SImage) (c : ℚ × ℚ) (shape : ℚ × ℚ) :
    ((cutoutImage img c shape).metadata = img.metadata ∧
     (cutoutImage img c shape).computed = img.computed) ∧
    ∀ s : Source, s ∈ (cutoutImage img c shape).sources ↔
      ∃ s0, s0 ∈ img.sources ∧
        |s0.x - c.1| < shape.2 / 2 ∧ |s0.y - c.2| < shape.1 / 2 ∧
        s.sid = s0.sid ∧ s.x = s0.x - c.1 + shape.2 / 2 ∧
        s.y = s0.y - c.2 + shape.1 / 2 := by
  refine ⟨⟨rfl, rfl⟩, ?_⟩
  intro s
  show s ∈ (if img.sources.length > 0 then
      (img.sources.filter (inWindow c shape)).map (recoord c shape)
    else []) ↔ _
  by_cases hl : img.sources.length > 0
  · rw [if_pos hl]
    constructor
    · intro hm
      obtain ⟨s0, hs0, hrec⟩ := List.mem_map.mp hm
      have hfil := List.mem_filter.mp hs0
      have hin := hfil.2
      unfold inWindow at hin
      simp only [Bool.and_eq_true, decide_eq_true_eq] at hin
      refine ⟨s0, hfil.1, hin.1, hin.2, ?_, ?_, ?_⟩
      · rw [← hrec]
        rfl
      · rw [← hrec]
        rfl
      · rw [← hrec]
        rfl
    · rintro ⟨s0, hmem, hx, hy, hsid, hxx, hyy⟩
      apply List.mem_map.mpr
      refine ⟨s0, List.mem_filter.mpr ⟨hmem, ?_⟩, ?_⟩
      · unfold inWindow
        simp only [Bool.and_eq_true, decide_eq_true_eq]
        exact ⟨hx, hy⟩
      · have hs : s = ⟨s0.sid, s0.x - c.1 + shape.2 / 2,
            s0.y - c.2 + shape.1 / 2⟩ := by
          cases s
          simp only [Source.mk.injEq]
          exact ⟨hsid, hxx, hyy⟩
        rw [hs]
        rfl
  · rw [if_neg hl]
    have hnil : img.sources = [] := List.length_eq_zero.mp (by omega)
    simp [hnil]

/-- Claim C7 (amended: the copy's computed store is not a plain deep copy.
`Image.copy` deletes the new object's `catalogs` and `_sources` attributes
and reassigns them, and — the names being absent from the instance
`__dict__` and, normally, from the computed store — the intercepting
`__setattr__` lands both values in the copy's computed store). So
`copy(data=False)` yields a new Image with a null data buffer, a freshly
allocated metadata cell with equal contents, and a freshly allocated,
independently owned computed cell holding the deep-copied contents extended
with the `catalogs` and `_sources` entries; the fresh references differ from
the original's, so writing a key through the copy leaves the original's
computed store untouched while the copy's store receives the update. -/
theorem copy_independence {V : Type} (h : Heap V) (img : HImage V)
    (k : String) (v cv sv : V) (hm : img.metaRef < h.cells.length)
    (hc : img.compRef < h.cells.length)
    (hcat : img.catalogs = some cv) (hsrc : img.sources = some sv)
    (hnc : lookupA (h.readCell img.compRef) "catalogs" = none)
    (hns : lookupA (h.readCell img.compRef) "_sources" = none) :
    ∃ hp c, copyImage h img false = Except.ok (hp, c) ∧
      c.data = none ∧
      hp.readCell c.metaRef = h.readCell img.metaRef ∧
      hp.readCell c.compRef =
        h.readCell img.compRef ++ [("catalogs", cv), ("_sources", sv)] ∧
      c.metaRef ≠ img.metaRef ∧
      c.compRef ≠ img.compRef ∧
      (setComputed hp c k v).readCell img.compRef = h.readCell img.compRef ∧
      (setComputed hp c k v).readCell c.compRef =
        upsert (hp.readCell c.compRef) k v := by
  have hrdc : readCatalogs h img = some cv := by
    unfold readCatalogs
    rw [hcat]
  have hrds : readSources h img = some sv := by
    unfold readSources
    rw [hsrc]
  have hup1 : upsert (h.readCell img.compRef) "catalogs" cv =
      h.readCell img.compRef ++ [("catalogs", cv)] :=
    upsert_of_lookup_none _ _ _ hnc
  have hl2 : lookupA (h.readCell img.compRef ++ [("catalogs", cv)])
      "_sources" = none := by
    rw [lookupA_append, hns]
    rfl
  have hup2 : upsert (h.readCell img.compRef ++ [("catalogs", cv)])
      "_sources" sv =
      (h.readCell img.compRef ++ [("catalogs", cv)]) ++ [("_sources", sv)] :=
    upsert_of_lookup_none _ _ _ hl2
  have heq : copyImage h img false = Except.ok
      (((h.alloc (h.readCell img.metaRef)).1.alloc
          (h.readCell img.compRef)).1.writeCell
        ((h.alloc (h.readCell img.metaRef)).1.alloc
          (h.readCell img.compRef)).2
        ((h.readCell img.compRef ++ [("catalogs", cv)]) ++
          [("_sources", sv)]),
       ⟨none, (h.alloc (h.readCell img.metaRef)).2,
         ((h.alloc (h.readCell img.metaRef)).1.alloc
           (h.readCell img.compRef)).2, none, none⟩) := by
    unfold copyImage
    simp only [hrdc, hrds, hnc, hl2, Option.isSome_none, Bool.false_eq_true,
      if_false, hup1, hup2]
  have hn1 : (h.alloc (h.readCell img.metaRef)).1.cells.length =
      h.cells.length + 1 := by
    simp [Heap.alloc]
  have hlen2 : ((h.alloc (h.readCell img.metaRef)).1.alloc
      (h.readCell img.compRef)).1.cells.length = h.cells.length + 2 := by
    simp [Heap.alloc]
  have eqM2 : (h.alloc (h.readCell img.metaRef)).2 = h.cells.length := rfl
  have hcomp2 : ((h.alloc (h.readCell img.metaRef)).1.alloc
      (h.readCell img.compRef)).2 = h.cells.length + 1 := hn1
  have hRmeta : (((h.alloc (h.readCell img.metaRef)).1.alloc
      (h.readCell img.compRef)).1.writeCell
        ((h.alloc (h.readCell img.metaRef)).1.alloc
          (h.readCell img.compRef)).2
        ((h.readCell img.compRef ++ [("catalogs", cv)]) ++
          [("_sources", sv)])).readCell
      (h.alloc (h.readCell img.metaRef)).2 = h.readCell img.metaRef := by
    rw [readCell_write_ne _ _ _ _ (by rw [hcomp2, eqM2]; omega)]
    rw [readCell_alloc_old (h.alloc (h.readCell img.metaRef)).1
      (h.readCell img.compRef) (h.alloc (h.readCell img.metaRef)).2
      (by rw [eqM2, hn1]; omega)]
    exact readCell_alloc_new h (h.readCell img.metaRef)
  have hRcomp : (((h.alloc (h.readCell img.metaRef)).1.alloc
      (h.readCell img.compRef)).1.writeCell
        ((h.alloc (h.readCell img.metaRef)).1.alloc
          (h.readCell img.compRef)).2
        ((h.readCell img.compRef ++ [("catalogs", cv)]) ++
          [("_sources", sv)])).readCell
      ((h.alloc (h.readCell img.metaRef)).1.alloc
        (h.readCell img.compRef)).2 =
      h.readCell img.compRef ++ [("catalogs", cv), ("_sources", sv)] := by
    rw [readCell_write_self _ _ _ (by rw [hcomp2, hlen2]; omega)]
    rw [List.append_assoc]
    rfl
  have hMne : (h.alloc (h.readCell img.metaRef)).2 ≠ img.metaRef := by
    rw [eqM2]
    omega
  have hCne : ((h.alloc (h.readCell img.metaRef)).1.alloc
      (h.readCell img.compRef)).2 ≠ img.compRef := by
    rw [hcomp2]
    omega
  have hIndep : ((((h.alloc (h.readCell img.metaRef)).1.alloc
      (h.readCell img.compRef)).1.writeCell
        ((h.alloc (h.readCell img.metaRef)).1.alloc
          (h.readCell img.compRef)).2
        ((h.readCell img.compRef ++ [("catalogs", cv)]) ++
          [("_sources", sv)])).writeCell
      ((h.alloc (h.readCell img.metaRef)).1.alloc
        (h.readCell img.compRef)).2
      (upsert ((((h.alloc (h.readCell img.metaRef)).1.alloc
          (h.readCell img.compRef)).1.writeCell
            ((h.alloc (h.readCell img.metaRef)).1.alloc
              (h.readCell img.compRef)).2
            ((h.readCell img.compRef ++ [("catalogs", cv)]) ++
              [("_sources", sv)])).readCell
        ((h.alloc (h.readCell img.metaRef)).1.alloc
          (h.readCell img.compRef)).2) k v)).readCell img.compRef =
      h.readCell img.compRef := by
    rw [readCell_write_ne _ _ _ _ (by rw [hcomp2]; omega)]
    rw [readCell_write_ne _ _ _ _ (by rw [hcomp2]; omega)]
    rw [readCell_alloc_old (h.alloc (h.readCell img.metaRef)).1
      (h.readCell img.compRef) img.compRef (by rw [hn1]; omega)]
    exact readCell_alloc_old h (h.readCell img.metaRef) img.compRef hc
  have hUpd : ((((h.alloc (h.readCell img.metaRef)).1.alloc
      (h.readCell img.compRef)).1.writeCell
        ((h.alloc (h.readCell img.metaRef)).1.alloc
          (h.readCell img.compRef)).2
        ((h.readCell img.compRef ++ [("catalogs", cv)]) ++
          [("_sources", sv)])).writeCell
      ((h.alloc (h.readCell img.metaRef)).1.alloc
        (h.readCell img.compRef)).2
      (upsert ((((h.alloc (h.readCell img.metaRef)).1.alloc
          (h.readCell img.compRef)).1.writeCell
            ((h.alloc (h.readCell img.metaRef)).1.alloc
              (h.readCell img.compRef)).2
            ((h.readCell img.compRef ++ [("catalogs", cv)]) ++
              [("_sources", sv)])).readCell
        ((h.alloc (h.readCell img.metaRef)).1.alloc
          (h.readCell img.compRef)).2) k v)).readCell
      ((h.alloc (h.readCell img.metaRef)).1.alloc
        (h.readCell img.compRef)).2 =
      upsert ((((h.alloc (h.readCell img.metaRef)).1.alloc
          (h.readCell img.compRef)).1.writeCell
            ((h.alloc (h.readCell img.metaRef)).1.alloc
              (h.readCell img.compRef)).2
            ((h.readCell img.compRef ++ [("catalogs", cv)]) ++
              [("_sources", sv)])).readCell
        ((h.alloc (h.readCell img.metaRef)).1.alloc
          (h.readCell img.compRef)).2) k v := by
    apply readCell_write_self
    rw [writeCell_length, hcomp2, hlen2]
    omega
  exact ⟨_, _, heq, rfl, hRmeta, hRcomp, hMne, hCne, hIndep, hUpd⟩

/-- Witness for C7: a two-cell heap; the copy has a null data buffer and
writing `("i", 9)` through the copy leaves the original's computed cell
unchanged. -/
theorem copy_independence_witness :
    (wHImage.metaRef < wHeap.cells.length ∧
      wHImage.compRef < wHeap.cells.length ∧
      lookupA (wHeap.readCell wHImage.compRef) "catalogs" = none) ∧
    (∃ hp c, copyImage wHeap wHImage false = Except.ok (hp, c) ∧
      c.data = none ∧
      (setComputed hp c "i" 9).readCell wHImage.compRef =
        wHeap.readCell wHImage.compRef) := by
  refine ⟨⟨by decide, by decide, rfl⟩, ?_⟩
  obtain ⟨hp, c, heq, hdata, _, _, _, _, hindep, _⟩ :=
    copy_independence wHeap wHImage "i" 9 77 88 (by decide) (by decide)
      rfl rfl rfl rfl
  exact ⟨hp, c, heq, hdata, hindep⟩

/-- Counterexample to C7 as frozen: on a concrete original whose computed
store is `[("fwhm", 3)]`, the copy's computed store is
`[("fwhm", 3), ("catalogs", 77), ("_sources", 88)]` — not a deep copy with
equal contents. `Image.copy` deletes the new object's `catalogs` and
`_sources` attributes and reassigns them, and the intercepting
`__setattr__` stores both in the copy's computed store (image.py lines
53-57 with lines 378-385). -/
theorem copy_independence_counterexample :
    ∃ hp c, copyImage wHeap wHImage false = Except.ok (hp, c) ∧
      wHeap.readCell wHImage.compRef = [("fwhm", 3)] ∧
      hp.readCell c.compRef =
        [("fwhm", 3), ("catalogs", 77), ("_sources", 88)] ∧
      hp.readCell c.compRef ≠ wHeap.readCell wHImage.compRef :=
  ⟨_, _, rfl, rfl, rfl, by decide⟩

/-- Claim C10: `Image.__setattr__` interception. For an attribute name that
is not an already-existing attribute of the object (neither in the instance
`__dict__` nor in the computed store), plain assignment silently lands the
value in the computed store — the instance `__dict__` does not acquire the
name — and a subsequent attribute read returns it; assignment to an existing
attribute updates the instance dictionary normally, and reads see the new
value. -/
theorem setattr_computed_fallthrough (img : PyImage) (name : String)
    (v : PVal) (d : List (String × PVal))
    (hcomp : lookupA img.dict "computed" = some (PVal.vdict d)) :
    (hasattrM img name = false →
      computedStore (setattrM img name v) = some (upsert d name v) ∧
      lookupA (setattrM img name v).dict name = none ∧
      getattrM (setattrM img name v) name = some v) ∧
    (hasattrM img name = true →
      (setattrM img name v).dict = upsert img.dict name v ∧
      getattrM (setattrM img name v) name = some v) := by
  constructor
  · intro hno
    have hga : getattrM img name = none := by
      cases hg : getattrM img name with
      | none => rfl
      | some w =>
        unfold hasattrM at hno
        rw [hg] at hno
        cases hno
    have hdict : lookupA img.dict name = none := by
      unfold getattrM at hga
      cases hdl : lookupA img.dict name with
      | none => rfl
      | some w =>
        simp only [hdl] at hga
        cases hga
    have hd : lookupA d name = none := by
      unfold getattrM at hga
      simp only [hdict, hcomp] at hga
      exact hga
    have hnc : name ≠ "computed" := by
      intro he
      subst he
      rw [hcomp] at hdict
      cases hdict
    have hset : setattrM img name v =
        ⟨upsert img.dict "computed" (PVal.vdict (upsert d name v))⟩ := by
      unfold setattrM
      rw [if_neg (by simp [hno])]
      simp only [hcomp]
    refine ⟨?_, ?_, ?_⟩
    · rw [hset]
      unfold computedStore
      show (match lookupA (upsert img.dict "computed"
          (PVal.vdict (upsert d name v))) "computed" with
        | some (PVal.vdict d2) => some d2
        | _ => none) = some (upsert d name v)
      rw [lookupA_upsert_self]
    · rw [hset]
      show lookupA (upsert img.dict "computed"
        (PVal.vdict (upsert d name v))) name = none
      rw [lookupA_upsert_ne _ _ _ _ hnc]
      exact hdict
    · rw [hset]
      unfold getattrM
      simp only [lookupA_upsert_ne img.dict "computed" name
        (PVal.vdict (upsert d name v)) hnc, hdict, lookupA_upsert_self]
  · intro hyes
    have hset : setattrM img name v = ⟨upsert img.dict name v⟩ := by
      unfold setattrM
      rw [if_pos hyes]
    refine ⟨?_, ?_⟩
    · rw [hset]
    · rw [hset]
      unfold getattrM
      simp only [lookupA_upsert_self]

/-- Witness for C10: on a freshly constructed `Image` the name `"i"` is not
an existing attribute; `image.i = 4` lands `("i", 4)` in the computed store,
does not create an instance attribute, and reads back as `4`. -/
theorem setattr_computed_fallthrough_witness :
    hasattrM wPyImage "i" = false ∧
    computedStore (setattrM wPyImage "i" (PVal.vnat 4)) =
      some [("i", PVal.vnat 4)] ∧
    lookupA (setattrM wPyImage "i" (PVal.vnat 4)).dict "i" = none ∧
    getattrM (setattrM wPyImage "i" (PVal.vnat 4)) "i" =
      some (PVal.vnat 4) := by
  have h2 := (setattr_computed_fallthrough wPyImage "i" (PVal.vnat 4) []
    rfl).1 rfl
  exact ⟨rfl, by rw [h2.1]; rfl, h2.2.1, h2.2.2⟩

/-! ## Serialization round trip -/

theorem blockKeysFrom_length (bs : List BlockDescr) :
    ∀ i, (blockKeysFrom i bs).length = bs.length := by
  induction bs with
  | nil => intro i; rfl
  | cons b rest ih =>
    intro i
    simp [blockKeysFrom, ih]

theorem mkDictFrom_fresh :
    ∀ (bs : List BlockDescr) (i : Nat) (d : List (String × BlockDescr)),
    (∀ k0 ∈ blockKeysFrom i bs, d.any (fun p => p.1 = k0) = false) →
    (blockKeysFrom i bs).Nodup →
    mkDictFrom i bs d = d ++ (blockKeysFrom i bs).zip bs := by
  intro bs
  induction bs with
  | nil =>
    intro i d _ _
    simp [mkDictFrom, blockKeysFrom]
  | cons b rest ih =>
    intro i d hfresh hnodup
    have hk := hfresh (blockKey i b) (by simp [blockKeysFrom])
    have hupd : upsert d (blockKey i b) b = d ++ [(blockKey i b, b)] := by
      unfold upsert
      rw [if_neg (by simp [hk])]
    simp only [mkDictFrom]
    rw [hupd]
    have hcons : blockKeysFrom i (b :: rest) =
        blockKey i b :: blockKeysFrom (i + 1) rest := rfl
    have hnd := List.nodup_cons.mp (by rw [← hcons]; exact hnodup)
    have hfresh2 : ∀ k0 ∈ blockKeysFrom (i + 1) rest,
        (d ++ [(blockKey i b, b)]).any (fun p => p.1 = k0) = false := by
      intro k0 hk0
      rw [List.any_append]
      have h1 : d.any (fun p => p.1 = k0) = false := by
        apply hfresh
        rw [hcons]
        exact List.mem_cons_of_mem _ hk0
      have hne : blockKey i b ≠ k0 := by
        intro he
        apply hnd.1
        rw [he]
        exact hk0
      simp [h1, hne]
    rw [ih (i + 1) (d ++ [(blockKey i b, b)]) hfresh2 hnd.2]
    rw [hcons, List.zip_cons_cons]
    simp [List.append_assoc]

theorem seqBlocks_eq_of_nodup (bs : List BlockDescr)
    (h : (blockKeysFrom 0 bs).Nodup) : seqBlocks bs = bs := by
  unfold seqBlocks
  rw [mkDictFrom_fresh bs 0 [] (fun k0 _ => rfl) h]
  rw [List.nil_append]
  rw [List.map_snd_zip _ _ (by rw [blockKeysFrom_length bs 0])]

/-- Claim C8 (amended: restricted to sequences whose assigned block keys —
each block's `name`, or the default `"block{i}"` for an unnamed block at
position `i` — are pairwise distinct; otherwise re-keying on reconstruction
can overwrite a block, see the counterexample). For such a sequence,
`Sequence.from_dicts(seq.as_dicts)` reconstructs a block list equal to the
original: identical classes, names, `args`/`kwargs`, in the same order. -/
theorem serialization_round_trip (bs : List BlockDescr)
    (h : (blockKeysFrom 0 bs).Nodup) :
    fromDicts (asDicts bs) = bs := by
  unfold fromDicts asDicts
  rw [List.map_map]
  have hmap : ((fun dd : BlockDict =>
      { constructBlock dd.block dd.args dd.kwargs with name := dd.name }) ∘
      (fun b : BlockDescr =>
        (⟨b.cls, b.name, b.args, b.kwargs⟩ : BlockDict))) = id := by
    funext b
    cases b
    rfl
  rw [hmap, List.map_id]
  exact seqBlocks_eq_of_nodup bs h

/-- Witness for C8: a two-block sequence with distinct keys `"Alpha"` and
`"block1"` round-trips to an identical block list. -/
theorem serialization_round_trip_witness :
    (blockKeysFrom 0 wBlocks).Nodup ∧ fromDicts (asDicts wBlocks) = wBlocks :=
  ⟨by decide, serialization_round_trip wBlocks (by decide)⟩

/-- Counterexample to C8 as frozen: the sequence constructed from blocks
named `"block1"`, `"block2"` and an unnamed block (whose default key at
position 2 is `"block2"`, overwriting the second block) has block list
`[block1-block, unnamed-block]`; on reconstruction the unnamed block sits at
position 1, its default key `"block1"` collides with the first block's name,
and the round trip returns only the unnamed block — the block list is not
preserved. -/
theorem serialization_round_trip_counterexample :
    seqBlocks cexBlocksIn =
      [⟨1, some "block1", [], []⟩, ⟨3, none, [], []⟩] ∧
    fromDicts (asDicts (seqBlocks cexBlocksIn)) = [⟨3, none, [], []⟩] ∧
    fromDicts (asDicts (seqBlocks cexBlocksIn)) ≠ seqBlocks cexBlocksIn := by
  exact ⟨by decide, by decide, by decide⟩

end Prose
